import Mathlib

/-!
Verification of the oxretro cross-process protocol layer.

This file gives a shallow embedding, in Lean, of the protocol core of the
oxretro repository (src/core_protocol.rs, src/frontend/protocol.rs,
src/backend/callbacks.rs, src/audio/cpal/mod.rs, src/retro_types.rs) and
proves or refutes the frozen specification claims about it.

Modelling conventions:
* wire bytes are `Nat` values standing for `u8` (a well-formedness predicate
  bounds them below 256 where it matters);
* machine integers are `Nat`/`Int` with explicit `% 2 ^ w` at the points the
  Rust code casts or wraps;
* Rust panics (`unwrap`, out-of-bounds indexing) are modelled as `none` of an
  `Option`-valued function;
* the bincode serialization format used by the repository (fixed-width
  little-endian integers, `u32` enum variant indices, `u64` lengths, one-byte
  booleans and `Option` tags, IEEE bit patterns for floats carried as `Nat`)
  is embedded byte for byte.
-/

namespace Oxretro

/-- Little-endian byte encoding of a `u64`
(`byteorder::WriteBytesExt::write_u64::<LittleEndian>`, and bincode's
fixed-width `u64`). -/
def u64LE (n : Nat) : List Nat :=
  [n % 256, n / 256 % 256, n / 256 ^ 2 % 256, n / 256 ^ 3 % 256,
   n / 256 ^ 4 % 256, n / 256 ^ 5 % 256, n / 256 ^ 6 % 256, n / 256 ^ 7 % 256]

/-- Little-endian byte encoding of a `u32` (bincode fixed-width `u32`,
also used for enum variant indices). -/
def u32LE (n : Nat) : List Nat :=
  [n % 256, n / 256 % 256, n / 256 ^ 2 % 256, n / 256 ^ 3 % 256]

/-- Little-endian byte encoding of a `u16`. -/
def u16LE (n : Nat) : List Nat := [n % 256, n / 256 % 256]

/-- bincode fixed-width `i16`: two's-complement, little endian. -/
def i16LE (v : Int) : List Nat := u16LE (v % 65536).toNat

/-- Read a little-endian `u64` from the head of a byte stream
(`byteorder::ReadBytesExt::read_u64::<LittleEndian>`); `none` models a
short read. -/
def readU64LE : List Nat → Option (Nat × List Nat)
  | b0 :: b1 :: b2 :: b3 :: b4 :: b5 :: b6 :: b7 :: r =>
      some (b0 + 256 * b1 + 256 ^ 2 * b2 + 256 ^ 3 * b3 +
            256 ^ 4 * b4 + 256 ^ 5 * b5 + 256 ^ 6 * b6 + 256 ^ 7 * b7, r)
  | _ => none

/-- Read a little-endian `u32` from the head of a byte stream. -/
def readU32LE : List Nat → Option (Nat × List Nat)
  | b0 :: b1 :: b2 :: b3 :: r =>
      some (b0 + 256 * b1 + 256 ^ 2 * b2 + 256 ^ 3 * b3, r)
  | _ => none

/-- Read a little-endian `u16` from the head of a byte stream. -/
def readU16LE : List Nat → Option (Nat × List Nat)
  | b0 :: b1 :: r => some (b0 + 256 * b1, r)
  | _ => none

/-- Read a bincode `i16` (two's complement little endian). -/
def readI16LE (l : List Nat) : Option (Int × List Nat) :=
  (readU16LE l).map (fun p =>
    (if p.1 < 32768 then (p.1 : Int) else (p.1 : Int) - 65536, p.2))

theorem readU64LE_u64LE (n : Nat) (r : List Nat) (h : n < 2 ^ 64) :
    readU64LE (u64LE n ++ r) = some (n, r) := by
  simp only [u64LE, List.cons_append, List.nil_append, readU64LE,
    Option.some.injEq, Prod.mk.injEq, and_true]
  omega

theorem readU32LE_u32LE (n : Nat) (r : List Nat) (h : n < 2 ^ 32) :
    readU32LE (u32LE n ++ r) = some (n, r) := by
  simp only [u32LE, List.cons_append, List.nil_append, readU32LE,
    Option.some.injEq, Prod.mk.injEq, and_true]
  omega

theorem readU16LE_u16LE (n : Nat) (r : List Nat) (h : n < 2 ^ 16) :
    readU16LE (u16LE n ++ r) = some (n, r) := by
  simp only [u16LE, List.cons_append, List.nil_append, readU16LE,
    Option.some.injEq, Prod.mk.injEq, and_true]
  omega

theorem readI16LE_i16LE (v : Int) (r : List Nat)
    (h1 : -32768 ≤ v) (h2 : v < 32768) :
    readI16LE (i16LE v ++ r) = some (v, r) := by
  have hlt : (v % 65536).toNat < 2 ^ 16 := by omega
  simp only [i16LE, readI16LE, readU16LE_u16LE _ _ hlt, Option.map_some',
    Option.some.injEq, Prod.mk.injEq, and_true]
  split <;> omega

/-- bincode byte/string sequence: `u64` length followed by the raw bytes
(used for `String`, `Vec<u8>` and serde's `CString` as bytes). -/
def serBytes (s : List Nat) : List Nat := u64LE s.length ++ s

/-- bincode sequence of elements: `u64` count followed by the
concatenated element encodings (serde `Vec<T>`). -/
def serList (f : α → List Nat) (xs : List α) : List Nat :=
  u64LE xs.length ++ (xs.map f).flatten

/-- bincode `bool`: a single byte, 0 or 1. -/
def serBool (b : Bool) : List Nat := [if b then 1 else 0]

/-- bincode `Option<T>`: a one-byte tag (0 = `None`, 1 = `Some`) followed by
the payload. -/
def serOption (f : α → List Nat) : Option α → List Nat
  | none => [0]
  | some x => 1 :: f x

/-- Take exactly `n` bytes off the head of the stream (`Read::read_exact`
into an `n`-byte buffer); `none` models a short read. -/
def readBytesN : Nat → List Nat → Option (List Nat × List Nat)
  | 0, l => some ([], l)
  | _ + 1, [] => none
  | n + 1, b :: l => (readBytesN n l).map (fun p => (b :: p.1, p.2))

/-- Read a bincode byte/string sequence: `u64` length, then that many bytes. -/
def readBytes (l : List Nat) : Option (List Nat × List Nat) := do
  let (n, r) ← readU64LE l
  readBytesN n r

/-- Read `n` consecutive elements with the element reader `f`. -/
def readListN (f : List Nat → Option (α × List Nat)) :
    Nat → List Nat → Option (List α × List Nat)
  | 0, l => some ([], l)
  | n + 1, l => do
    let (x, r) ← f l
    let (xs, r2) ← readListN f n r
    pure (x :: xs, r2)

/-- Read a bincode sequence: `u64` count, then that many elements. -/
def readSeq (f : List Nat → Option (α × List Nat)) (l : List Nat) :
    Option (List α × List Nat) := do
  let (n, r) ← readU64LE l
  readListN f n r

/-- Read a bincode `bool` (a 0 or 1 byte; anything else is an error). -/
def readBool : List Nat → Option (Bool × List Nat)
  | 0 :: r => some (false, r)
  | 1 :: r => some (true, r)
  | _ => none

/-- Read a bincode `Option<T>`. -/
def readOption (f : List Nat → Option (α × List Nat)) :
    List Nat → Option (Option α × List Nat)
  | 0 :: r => some (none, r)
  | 1 :: r => (f r).map (fun p => (some p.1, p.2))
  | _ => none

theorem readBytesN_append (s r : List Nat) :
    readBytesN s.length (s ++ r) = some (s, r) := by
  induction s with
  | nil => rfl
  | cons b t ih => simp [readBytesN, ih]

theorem readBytesN_length {n : Nat} {l xs r : List Nat}
    (h : readBytesN n l = some (xs, r)) : r.length ≤ l.length := by
  induction n generalizing l xs r with
  | zero =>
    simp only [readBytesN, Option.some.injEq, Prod.mk.injEq] at h
    obtain ⟨-, rfl⟩ := h
    exact le_rfl
  | succ n ih =>
    match l with
    | [] => simp [readBytesN] at h
    | b :: t =>
      simp only [readBytesN] at h
      match h2 : readBytesN n t with
      | none => rw [h2] at h; simp at h
      | some (xs2, r2) =>
        rw [h2] at h
        simp only [Option.map_some', Option.some.injEq, Prod.mk.injEq] at h
        obtain ⟨-, h4⟩ := h
        subst h4
        have := ih h2
        simp only [List.length_cons]
        omega

theorem readBytes_serBytes (s r : List Nat) (h : s.length < 2 ^ 64) :
    readBytes (serBytes s ++ r) = some (s, r) := by
  simp only [serBytes, readBytes, List.append_assoc, readU64LE_u64LE _ _ h,
    Option.bind_eq_bind, Option.some_bind, readBytesN_append]

theorem readListN_append (f : α → List Nat)
    (g : List Nat → Option (α × List Nat)) (xs : List α) (r : List Nat)
    (h : ∀ x ∈ xs, ∀ t : List Nat, g (f x ++ t) = some (x, t)) :
    readListN g xs.length ((xs.map f).flatten ++ r) = some (xs, r) := by
  induction xs with
  | nil => rfl
  | cons x t ih =>
    simp only [List.length_cons, List.map_cons, List.flatten_cons,
      List.append_assoc, readListN, Option.bind_eq_bind]
    rw [h x (List.mem_cons_self x t)]
    simp only [Option.some_bind]
    rw [ih (fun y hy t2 => h y (List.mem_cons_of_mem x hy) t2)]
    rfl

theorem readSeq_serList (f : α → List Nat)
    (g : List Nat → Option (α × List Nat)) (xs : List α) (r : List Nat)
    (hlen : xs.length < 2 ^ 64)
    (h : ∀ x ∈ xs, ∀ t : List Nat, g (f x ++ t) = some (x, t)) :
    readSeq g (serList f xs ++ r) = some (xs, r) := by
  simp only [serList, readSeq, List.append_assoc, readU64LE_u64LE _ _ hlen,
    Option.bind_eq_bind, Option.some_bind]
  exact readListN_append f g xs r h

theorem readBool_serBool (b : Bool) (r : List Nat) :
    readBool (serBool b ++ r) = some (b, r) := by
  cases b <;> rfl

theorem readOption_serOption (f : α → List Nat)
    (g : List Nat → Option (α × List Nat)) (x : Option α) (r : List Nat)
    (h : ∀ y, x = some y → g (f y ++ r) = some (y, r)) :
    readOption g (serOption f x ++ r) = some (x, r) := by
  cases x with
  | none => rfl
  | some y => simp [serOption, readOption, h y rfl]

/-- Parsed collection of variable settings (src/retro_types.rs
`RetroVariable`).  Strings are carried as their UTF-8 byte lists;
`selected_raw` is a `CString`, which serde serializes as its bytes
(without the terminating NUL). -/
structure RetroVariable where
  key : List Nat
  description : List Nat
  options : List (List Nat)
  selected : List Nat
  selected_raw : List Nat
deriving DecidableEq

/-- Core metadata (src/retro_types.rs `RetroSystemInfo`). -/
structure RetroSystemInfo where
  library_name : List Nat
  library_version : List Nat
  valid_extensions : List (List Nat)
  need_fullpath : Bool
  block_extract : Bool
deriving DecidableEq

/-- Framebuffer dimensions (src/retro_types.rs `RetroGameGeometry`).
`aspect_ratio_bits` carries the IEEE-754 bit pattern of the `f32`
field `aspect_ratio`; bincode moves floats as their raw bits, so the
bit pattern is the faithful wire-level model. -/
structure RetroGameGeometry where
  base_width : Nat
  base_height : Nat
  max_width : Nat
  max_height : Nat
  aspect_ratio_bits : Nat
deriving DecidableEq

/-- Core timings (src/retro_types.rs `RetroSystemTiming`); the two `f64`
fields are carried as their 64-bit IEEE-754 bit patterns. -/
structure RetroSystemTiming where
  fps_bits : Nat
  sample_rate_bits : Nat
deriving DecidableEq

/-- A/V requirements (src/retro_types.rs `RetroAvInfo`). -/
structure RetroAvInfo where
  geometry : RetroGameGeometry
  timing : RetroSystemTiming
deriving DecidableEq

/-- Video refresh payload (src/core_protocol.rs `VideoRefreshType`). -/
inductive VideoRefreshType where
  | Software (framebuffer : List Nat) (width : Nat) (height : Nat)
  | Hardware
deriving DecidableEq

/-- The protocol message payload union (src/core_protocol.rs
`ProtocolMessageType`), with variants in source declaration order (this
order fixes the bincode variant indices).  `i16` payloads are `Int`,
`u32`/`u64` payloads are `Nat`. -/
inductive ProtocolMessageType where
  | SetVariables (vars : List RetroVariable)
  | GetVariable (key : List Nat)
  | VideoRefresh (v : VideoRefreshType)
  | AudioSample (samples : List Int)
  | PollInput
  | InputState (port : Nat) (device : Nat) (index : Nat) (id : Nat)
  | SystemInfoResponse (info : RetroSystemInfo)
  | APIVersionResponse (version : Nat)
  | AVInfoResponse (info : RetroAvInfo)
  | RunResponse
  | Init
  | Deinit
  | Load (path : List Nat)
  | Unload
  | APIVersion
  | AVInfo
  | Run
  | Reset
  | SystemInfo
  | InputResponse (state : Int)
  | GetVariableResponse (value : Option (List Nat))
deriving DecidableEq

/-- Wire envelope (src/core_protocol.rs `ProtocolMessage`). -/
structure ProtocolMessage where
  id : Nat
  data : ProtocolMessageType
deriving DecidableEq

namespace ProtocolMessageType

/-- src/core_protocol.rs `ProtocolMessageType::is_blocking`. -/
def is_blocking : ProtocolMessageType → Bool
  | .InputState _ _ _ _ => true
  | .APIVersion => true
  | .SystemInfo => true
  | .GetVariable _ => true
  | .AVInfo => true
  | .Run => true
  | _ => false

/-- src/core_protocol.rs `ProtocolMessageType::is_response`. -/
def is_response : ProtocolMessageType → Bool
  | .InputResponse _ => true
  | .SystemInfoResponse _ => true
  | .APIVersionResponse _ => true
  | .GetVariableResponse _ => true
  | .AVInfoResponse _ => true
  | .RunResponse => true
  | _ => false

end ProtocolMessageType

/-- The 21 tags of the message union, erasing payloads. -/
inductive MessageTag where
  | SetVariables | GetVariable | VideoRefresh | AudioSample | PollInput
  | InputState | SystemInfoResponse | APIVersionResponse | AVInfoResponse
  | RunResponse | Init | Deinit | Load | Unload | APIVersion | AVInfo
  | Run | Reset | SystemInfo | InputResponse | GetVariableResponse
deriving DecidableEq

/-- Tag of a message, forgetting the payload. -/
def tagOf : ProtocolMessageType → MessageTag
  | .SetVariables _ => .SetVariables
  | .GetVariable _ => .GetVariable
  | .VideoRefresh _ => .VideoRefresh
  | .AudioSample _ => .AudioSample
  | .PollInput => .PollInput
  | .InputState _ _ _ _ => .InputState
  | .SystemInfoResponse _ => .SystemInfoResponse
  | .APIVersionResponse _ => .APIVersionResponse
  | .AVInfoResponse _ => .AVInfoResponse
  | .RunResponse => .RunResponse
  | .Init => .Init
  | .Deinit => .Deinit
  | .Load _ => .Load
  | .Unload => .Unload
  | .APIVersion => .APIVersion
  | .AVInfo => .AVInfo
  | .Run => .Run
  | .Reset => .Reset
  | .SystemInfo => .SystemInfo
  | .InputResponse _ => .InputResponse
  | .GetVariableResponse _ => .GetVariableResponse

/-- The tags the spec declares blocking. -/
def blockingTags : List MessageTag :=
  [.InputState, .APIVersion, .SystemInfo, .GetVariable, .AVInfo, .Run]

/-- The tags the spec declares to be responses. -/
def responseTags : List MessageTag :=
  [.InputResponse, .SystemInfoResponse, .APIVersionResponse,
   .GetVariableResponse, .AVInfoResponse, .RunResponse]

/-- bincode encoding of `RetroVariable` (serde: fields in declaration
order; `CString` is serialized as bytes). -/
def serVariable (v : RetroVariable) : List Nat :=
  serBytes v.key ++ serBytes v.description ++ serList serBytes v.options ++
  serBytes v.selected ++ serBytes v.selected_raw

/-- bincode encoding of `RetroSystemInfo`. -/
def serSystemInfo (i : RetroSystemInfo) : List Nat :=
  serBytes i.library_name ++ serBytes i.library_version ++
  serList serBytes i.valid_extensions ++ serBool i.need_fullpath ++
  serBool i.block_extract

/-- bincode encoding of `RetroGameGeometry` (four `u32` fields plus the
`f32` bit pattern). -/
def serGeometry (g : RetroGameGeometry) : List Nat :=
  u32LE g.base_width ++ u32LE g.base_height ++ u32LE g.max_width ++
  u32LE g.max_height ++ u32LE g.aspect_ratio_bits

/-- bincode encoding of `RetroSystemTiming` (two `f64` bit patterns). -/
def serTiming (t : RetroSystemTiming) : List Nat :=
  u64LE t.fps_bits ++ u64LE t.sample_rate_bits

/-- bincode encoding of `RetroAvInfo`. -/
def serAvInfo (i : RetroAvInfo) : List Nat :=
  serGeometry i.geometry ++ serTiming i.timing

/-- bincode encoding of `VideoRefreshType`: `u32` variant index followed
by the variant fields. -/
def serRefresh : VideoRefreshType → List Nat
  | .Software fb w h => u32LE 0 ++ serBytes fb ++ u64LE w ++ u64LE h
  | .Hardware => u32LE 1

/-- bincode encoding of `ProtocolMessageType`: the `u32` variant index in
declaration order, then the payload fields in order. -/
def serType : ProtocolMessageType → List Nat
  | .SetVariables vars => u32LE 0 ++ serList serVariable vars
  | .GetVariable key => u32LE 1 ++ serBytes key
  | .VideoRefresh v => u32LE 2 ++ serRefresh v
  | .AudioSample samples => u32LE 3 ++ serList i16LE samples
  | .PollInput => u32LE 4
  | .InputState port device index id =>
      u32LE 5 ++ u32LE port ++ u32LE device ++ u32LE index ++ u32LE id
  | .SystemInfoResponse info => u32LE 6 ++ serSystemInfo info
  | .APIVersionResponse version => u32LE 7 ++ u32LE version
  | .AVInfoResponse info => u32LE 8 ++ serAvInfo info
  | .RunResponse => u32LE 9
  | .Init => u32LE 10
  | .Deinit => u32LE 11
  | .Load path => u32LE 12 ++ serBytes path
  | .Unload => u32LE 13
  | .APIVersion => u32LE 14
  | .AVInfo => u32LE 15
  | .Run => u32LE 16
  | .Reset => u32LE 17
  | .SystemInfo => u32LE 18
  | .InputResponse state => u32LE 19 ++ i16LE state
  | .GetVariableResponse value => u32LE 20 ++ serOption serBytes value

/-- bincode encoding of the wire envelope `ProtocolMessage`
(`u64` id, then the payload union). -/
def serMsg (m : ProtocolMessage) : List Nat := u64LE m.id ++ serType m.data

/-- Decode a `RetroVariable`. -/
def readVariable (l : List Nat) : Option (RetroVariable × List Nat) := do
  let (key, l) ← readBytes l
  let (description, l) ← readBytes l
  let (options, l) ← readSeq readBytes l
  let (selected, l) ← readBytes l
  let (selected_raw, l) ← readBytes l
  pure (⟨key, description, options, selected, selected_raw⟩, l)

/-- Decode a `RetroSystemInfo`. -/
def readSystemInfo (l : List Nat) : Option (RetroSystemInfo × List Nat) := do
  let (library_name, l) ← readBytes l
  let (library_version, l) ← readBytes l
  let (valid_extensions, l) ← readSeq readBytes l
  let (need_fullpath, l) ← readBool l
  let (block_extract, l) ← readBool l
  pure (⟨library_name, library_version, valid_extensions,
         need_fullpath, block_extract⟩, l)

/-- Decode a `RetroGameGeometry`. -/
def readGeometry (l : List Nat) : Option (RetroGameGeometry × List Nat) := do
  let (base_width, l) ← readU32LE l
  let (base_height, l) ← readU32LE l
  let (max_width, l) ← readU32LE l
  let (max_height, l) ← readU32LE l
  let (bits, l) ← readU32LE l
  pure (⟨base_width, base_height, max_width, max_height, bits⟩, l)

/-- Decode a `RetroSystemTiming`. -/
def readTiming (l : List Nat) : Option (RetroSystemTiming × List Nat) := do
  let (fps_bits, l) ← readU64LE l
  let (sample_rate_bits, l) ← readU64LE l
  pure (⟨fps_bits, sample_rate_bits⟩, l)

/-- Decode a `RetroAvInfo`. -/
def readAvInfo (l : List Nat) : Option (RetroAvInfo × List Nat) := do
  let (geometry, l) ← readGeometry l
  let (timing, l) ← readTiming l
  pure (⟨geometry, timing⟩, l)

/-- Decode a `VideoRefreshType`. -/
def readRefresh (l : List Nat) : Option (VideoRefreshType × List Nat) := do
  let (tag, l) ← readU32LE l
  match tag with
  | 0 => do
    let (fb, l) ← readBytes l
    let (w, l) ← readU64LE l
    let (h, l) ← readU64LE l
    pure (.Software fb w h, l)
  | 1 => pure (.Hardware, l)
  | _ => none

/-- Payload decoder for a given variant index of `ProtocolMessageType`. -/
def readTypeBody (tag : Nat) (l : List Nat) :
    Option (ProtocolMessageType × List Nat) :=
  match tag with
  | 0 => (readSeq readVariable l).map (fun p => (.SetVariables p.1, p.2))
  | 1 => (readBytes l).map (fun p => (.GetVariable p.1, p.2))
  | 2 => (readRefresh l).map (fun p => (.VideoRefresh p.1, p.2))
  | 3 => (readSeq readI16LE l).map (fun p => (.AudioSample p.1, p.2))
  | 4 => pure (.PollInput, l)
  | 5 => do
    let (port, l) ← readU32LE l
    let (device, l) ← readU32LE l
    let (index, l) ← readU32LE l
    let (id, l) ← readU32LE l
    pure (.InputState port device index id, l)
  | 6 => (readSystemInfo l).map (fun p => (.SystemInfoResponse p.1, p.2))
  | 7 => (readU32LE l).map (fun p => (.APIVersionResponse p.1, p.2))
  | 8 => (readAvInfo l).map (fun p => (.AVInfoResponse p.1, p.2))
  | 9 => pure (.RunResponse, l)
  | 10 => pure (.Init, l)
  | 11 => pure (.Deinit, l)
  | 12 => (readBytes l).map (fun p => (.Load p.1, p.2))
  | 13 => pure (.Unload, l)
  | 14 => pure (.APIVersion, l)
  | 15 => pure (.AVInfo, l)
  | 16 => pure (.Run, l)
  | 17 => pure (.Reset, l)
  | 18 => pure (.SystemInfo, l)
  | 19 => (readI16LE l).map (fun p => (.InputResponse p.1, p.2))
  | 20 => (readOption readBytes l).map (fun p => (.GetVariableResponse p.1, p.2))
  | _ => none

/-- Decode a `ProtocolMessageType` (bincode `deserialize`): the `u32`
variant index, then the payload for that variant. -/
def readType (l : List Nat) : Option (ProtocolMessageType × List Nat) := do
  let (tag, l) ← readU32LE l
  readTypeBody tag l

/-- Decode a `ProtocolMessage`. -/
def readMsg (l : List Nat) : Option (ProtocolMessage × List Nat) := do
  let (id, l) ← readU64LE l
  let (data, l) ← readType l
  pure (⟨id, data⟩, l)

/-- Well-formed byte content: what a Rust `Vec<u8>`/`String`/`CString`
can actually hold (each element a `u8`, length addressable by `u64`). -/
def wfBytes (s : List Nat) : Prop :=
  s.length < 2 ^ 64 ∧ ∀ b ∈ s, b < 256

/-- Well-formed `RetroVariable`. -/
def wfVariable (v : RetroVariable) : Prop :=
  wfBytes v.key ∧ wfBytes v.description ∧ v.options.length < 2 ^ 64 ∧
  (∀ o ∈ v.options, wfBytes o) ∧ wfBytes v.selected ∧ wfBytes v.selected_raw

/-- Well-formed `RetroSystemInfo`. -/
def wfSystemInfo (i : RetroSystemInfo) : Prop :=
  wfBytes i.library_name ∧ wfBytes i.library_version ∧
  i.valid_extensions.length < 2 ^ 64 ∧ ∀ e ∈ i.valid_extensions, wfBytes e

/-- Well-formed `RetroGameGeometry`: the `u32` fields fit in 32 bits. -/
def wfGeometry (g : RetroGameGeometry) : Prop :=
  g.base_width < 2 ^ 32 ∧ g.base_height < 2 ^ 32 ∧ g.max_width < 2 ^ 32 ∧
  g.max_height < 2 ^ 32 ∧ g.aspect_ratio_bits < 2 ^ 32

/-- Well-formed `RetroSystemTiming`: the `f64` bit patterns fit 64 bits. -/
def wfTiming (t : RetroSystemTiming) : Prop :=
  t.fps_bits < 2 ^ 64 ∧ t.sample_rate_bits < 2 ^ 64

/-- Well-formed `VideoRefreshType`: a representable framebuffer and
`u64` dimensions. -/
def wfRefresh : VideoRefreshType → Prop
  | .Software fb w h => wfBytes fb ∧ w < 2 ^ 64 ∧ h < 2 ^ 64
  | .Hardware => True

/-- A message payload every field of which fits its Rust machine type;
exactly the values the wire can carry. -/
def wfType : ProtocolMessageType → Prop
  | .SetVariables vars => vars.length < 2 ^ 64 ∧ ∀ v ∈ vars, wfVariable v
  | .GetVariable key => wfBytes key
  | .VideoRefresh v => wfRefresh v
  | .AudioSample samples =>
      samples.length < 2 ^ 64 ∧ ∀ s ∈ samples, -32768 ≤ s ∧ s < 32768
  | .InputState port device index id =>
      port < 2 ^ 32 ∧ device < 2 ^ 32 ∧ index < 2 ^ 32 ∧ id < 2 ^ 32
  | .SystemInfoResponse info => wfSystemInfo info
  | .APIVersionResponse version => version < 2 ^ 32
  | .AVInfoResponse info => wfGeometry info.geometry ∧ wfTiming info.timing
  | .Load path => wfBytes path
  | .InputResponse state => -32768 ≤ state ∧ state < 32768
  | .GetVariableResponse value => ∀ s, value = some s → wfBytes s
  | _ => True

/-- A well-formed wire envelope. -/
def wfMsg (m : ProtocolMessage) : Prop := m.id < 2 ^ 64 ∧ wfType m.data

theorem readVariable_serVariable (v : RetroVariable) (r : List Nat)
    (h : wfVariable v) : readVariable (serVariable v ++ r) = some (v, r) := by
  obtain ⟨⟨h1, -⟩, ⟨h2, -⟩, h3, h4, ⟨h5, -⟩, ⟨h6, -⟩⟩ := h
  simp only [serVariable, readVariable, List.append_assoc, Option.bind_eq_bind]
  rw [readBytes_serBytes _ _ h1]; simp only [Option.some_bind]
  rw [readBytes_serBytes _ _ h2]; simp only [Option.some_bind]
  rw [readSeq_serList serBytes readBytes v.options _ h3
    (fun x hx t => readBytes_serBytes x t (h4 x hx).1)]
  simp only [Option.some_bind]
  rw [readBytes_serBytes _ _ h5]; simp only [Option.some_bind]
  rw [readBytes_serBytes _ _ h6]
  rfl

theorem readSystemInfo_serSystemInfo (i : RetroSystemInfo) (r : List Nat)
    (h : wfSystemInfo i) : readSystemInfo (serSystemInfo i ++ r) = some (i, r) := by
  obtain ⟨⟨h1, -⟩, ⟨h2, -⟩, h3, h4⟩ := h
  simp only [serSystemInfo, readSystemInfo, List.append_assoc,
    Option.bind_eq_bind]
  rw [readBytes_serBytes _ _ h1]; simp only [Option.some_bind]
  rw [readBytes_serBytes _ _ h2]; simp only [Option.some_bind]
  rw [readSeq_serList serBytes readBytes i.valid_extensions _ h3
    (fun x hx t => readBytes_serBytes x t (h4 x hx).1)]
  simp only [Option.some_bind]
  rw [readBool_serBool]; simp only [Option.some_bind]
  rw [readBool_serBool]
  rfl

theorem readGeometry_serGeometry (g : RetroGameGeometry) (r : List Nat)
    (h : wfGeometry g) : readGeometry (serGeometry g ++ r) = some (g, r) := by
  obtain ⟨h1, h2, h3, h4, h5⟩ := h
  simp only [serGeometry, readGeometry, List.append_assoc, Option.bind_eq_bind]
  rw [readU32LE_u32LE _ _ h1]; simp only [Option.some_bind]
  rw [readU32LE_u32LE _ _ h2]; simp only [Option.some_bind]
  rw [readU32LE_u32LE _ _ h3]; simp only [Option.some_bind]
  rw [readU32LE_u32LE _ _ h4]; simp only [Option.some_bind]
  rw [readU32LE_u32LE _ _ h5]
  rfl

theorem readTiming_serTiming (t : RetroSystemTiming) (r : List Nat)
    (h : wfTiming t) : readTiming (serTiming t ++ r) = some (t, r) := by
  obtain ⟨h1, h2⟩ := h
  simp only [serTiming, readTiming, List.append_assoc, Option.bind_eq_bind]
  rw [readU64LE_u64LE _ _ h1]; simp only [Option.some_bind]
  rw [readU64LE_u64LE _ _ h2]
  rfl

theorem readAvInfo_serAvInfo (i : RetroAvInfo) (r : List Nat)
    (hg : wfGeometry i.geometry) (ht : wfTiming i.timing) :
    readAvInfo (serAvInfo i ++ r) = some (i, r) := by
  simp only [serAvInfo, readAvInfo, List.append_assoc, Option.bind_eq_bind]
  rw [readGeometry_serGeometry _ _ hg]; simp only [Option.some_bind]
  rw [readTiming_serTiming _ _ ht]
  rfl

theorem readRefresh_serRefresh (v : VideoRefreshType) (r : List Nat)
    (h : wfRefresh v) : readRefresh (serRefresh v ++ r) = some (v, r) := by
  cases v with
  | Software fb w hgt =>
    obtain ⟨⟨h1, -⟩, h2, h3⟩ := h
    simp only [serRefresh, readRefresh, List.append_assoc, Option.bind_eq_bind]
    rw [readU32LE_u32LE _ _ (by norm_num)]; simp only [Option.some_bind]
    rw [readBytes_serBytes _ _ h1]; simp only [Option.some_bind]
    rw [readU64LE_u64LE _ _ h2]; simp only [Option.some_bind]
    rw [readU64LE_u64LE _ _ h3]
    rfl
  | Hardware =>
    simp only [serRefresh, readRefresh, List.append_assoc, Option.bind_eq_bind]
    rw [readU32LE_u32LE _ _ (by norm_num)]
    rfl

theorem readType_u32LE (tag : Nat) (rest : List Nat) (h : tag < 2 ^ 32) :
    readType (u32LE tag ++ rest) = readTypeBody tag rest := by
  simp only [readType, Option.bind_eq_bind]
  rw [readU32LE_u32LE _ _ h]
  rfl

theorem readTypeBody_eq_0 (l : List Nat) : readTypeBody 0 l =
    (readSeq readVariable l).map (fun p => (.SetVariables p.1, p.2)) := rfl

theorem readTypeBody_eq_1 (l : List Nat) : readTypeBody 1 l =
    (readBytes l).map (fun p => (.GetVariable p.1, p.2)) := rfl

theorem readTypeBody_eq_2 (l : List Nat) : readTypeBody 2 l =
    (readRefresh l).map (fun p => (.VideoRefresh p.1, p.2)) := rfl

theorem readTypeBody_eq_3 (l : List Nat) : readTypeBody 3 l =
    (readSeq readI16LE l).map (fun p => (.AudioSample p.1, p.2)) := rfl

theorem readTypeBody_eq_5 (l : List Nat) : readTypeBody 5 l = (do
    let (port, l) ← readU32LE l
    let (device, l) ← readU32LE l
    let (index, l) ← readU32LE l
    let (id, l) ← readU32LE l
    pure (.InputState port device index id, l)) := rfl

theorem readTypeBody_eq_6 (l : List Nat) : readTypeBody 6 l =
    (readSystemInfo l).map (fun p => (.SystemInfoResponse p.1, p.2)) := rfl

theorem readTypeBody_eq_7 (l : List Nat) : readTypeBody 7 l =
    (readU32LE l).map (fun p => (.APIVersionResponse p.1, p.2)) := rfl

theorem readTypeBody_eq_8 (l : List Nat) : readTypeBody 8 l =
    (readAvInfo l).map (fun p => (.AVInfoResponse p.1, p.2)) := rfl

theorem readTypeBody_eq_12 (l : List Nat) : readTypeBody 12 l =
    (readBytes l).map (fun p => (.Load p.1, p.2)) := rfl

theorem readTypeBody_eq_19 (l : List Nat) : readTypeBody 19 l =
    (readI16LE l).map (fun p => (.InputResponse p.1, p.2)) := rfl

theorem readTypeBody_eq_20 (l : List Nat) : readTypeBody 20 l =
    (readOption readBytes l).map (fun p => (.GetVariableResponse p.1, p.2)) := rfl

/-- Round-trip of `bincode::deserialize ∘ bincode::serialize` on the
message union, stated in continuation form over an arbitrary tail. -/
theorem readType_serType (m : ProtocolMessageType) (r : List Nat)
    (h : wfType m) : readType (serType m ++ r) = some (m, r) := by
  cases m with
  | SetVariables vars =>
    obtain ⟨h1, h2⟩ := h
    simp only [serType, List.append_assoc]
    rw [readType_u32LE _ _ (by norm_num), readTypeBody_eq_0,
      readSeq_serList serVariable readVariable vars _ h1
        (fun x hx t => readVariable_serVariable x t (h2 x hx))]
    rfl
  | GetVariable key =>
    obtain ⟨h1, -⟩ := h
    simp only [serType, List.append_assoc]
    rw [readType_u32LE _ _ (by norm_num), readTypeBody_eq_1,
      readBytes_serBytes _ _ h1]
    rfl
  | VideoRefresh v =>
    simp only [serType, List.append_assoc]
    rw [readType_u32LE _ _ (by norm_num), readTypeBody_eq_2,
      readRefresh_serRefresh _ _ h]
    rfl
  | AudioSample samples =>
    obtain ⟨h1, h2⟩ := h
    simp only [serType, List.append_assoc]
    rw [readType_u32LE _ _ (by norm_num), readTypeBody_eq_3,
      readSeq_serList i16LE readI16LE samples _ h1
        (fun x hx t => readI16LE_i16LE x t (h2 x hx).1 (h2 x hx).2)]
    rfl
  | PollInput =>
    simp only [serType]
    rw [readType_u32LE _ _ (by norm_num)]
    rfl
  | InputState port device index id =>
    obtain ⟨h1, h2, h3, h4⟩ := h
    simp only [serType, List.append_assoc]
    rw [readType_u32LE _ _ (by norm_num), readTypeBody_eq_5]
    simp only [Option.bind_eq_bind]
    rw [readU32LE_u32LE _ _ h1]; simp only [Option.some_bind]
    rw [readU32LE_u32LE _ _ h2]; simp only [Option.some_bind]
    rw [readU32LE_u32LE _ _ h3]; simp only [Option.some_bind]
    rw [readU32LE_u32LE _ _ h4]
    rfl
  | SystemInfoResponse info =>
    simp only [serType, List.append_assoc]
    rw [readType_u32LE _ _ (by norm_num), readTypeBody_eq_6,
      readSystemInfo_serSystemInfo _ _ h]
    rfl
  | APIVersionResponse version =>
    simp only [serType, List.append_assoc]
    rw [readType_u32LE _ _ (by norm_num), readTypeBody_eq_7,
      readU32LE_u32LE _ _ h]
    rfl
  | AVInfoResponse info =>
    simp only [serType, List.append_assoc]
    rw [readType_u32LE _ _ (by norm_num), readTypeBody_eq_8,
      readAvInfo_serAvInfo _ _ h.1 h.2]
    rfl
  | RunResponse =>
    simp only [serType]
    rw [readType_u32LE _ _ (by norm_num)]
    rfl
  | Init =>
    simp only [serType]
    rw [readType_u32LE _ _ (by norm_num)]
    rfl
  | Deinit =>
    simp only [serType]
    rw [readType_u32LE _ _ (by norm_num)]
    rfl
  | Load path =>
    obtain ⟨h1, -⟩ := h
    simp only [serType, List.append_assoc]
    rw [readType_u32LE _ _ (by norm_num), readTypeBody_eq_12,
      readBytes_serBytes _ _ h1]
    rfl
  | Unload =>
    simp only [serType]
    rw [readType_u32LE _ _ (by norm_num)]
    rfl
  | APIVersion =>
    simp only [serType]
    rw [readType_u32LE _ _ (by norm_num)]
    rfl
  | AVInfo =>
    simp only [serType]
    rw [readType_u32LE _ _ (by norm_num)]
    rfl
  | Run =>
    simp only [serType]
    rw [readType_u32LE _ _ (by norm_num)]
    rfl
  | Reset =>
    simp only [serType]
    rw [readType_u32LE _ _ (by norm_num)]
    rfl
  | SystemInfo =>
    simp only [serType]
    rw [readType_u32LE _ _ (by norm_num)]
    rfl
  | InputResponse state =>
    simp only [serType, List.append_assoc]
    rw [readType_u32LE _ _ (by norm_num), readTypeBody_eq_19,
      readI16LE_i16LE _ _ h.1 h.2]
    rfl
  | GetVariableResponse value =>
    simp only [serType, List.append_assoc]
    rw [readType_u32LE _ _ (by norm_num), readTypeBody_eq_20,
      readOption_serOption serBytes readBytes value _
        (fun y hy => readBytes_serBytes y _ (h y hy).1)]
    rfl

/-- Round-trip of the wire envelope. -/
theorem readMsg_serMsg (m : ProtocolMessage) (r : List Nat) (h : wfMsg m) :
    readMsg (serMsg m ++ r) = some (m, r) := by
  simp only [serMsg, readMsg, List.append_assoc, Option.bind_eq_bind]
  rw [readU64LE_u64LE _ _ h.1]; simp only [Option.some_bind]
  rw [readType_serType _ _ h.2]
  rfl

/-- The encode thread's framing (src/core_protocol.rs, encode thread):
serialize the message, then write `data.len() as u64` little endian
followed by the body, as one buffer.  The `as u64` cast is the `% 2 ^ 64`
inside `u64LE`. -/
def writeFrame (m : ProtocolMessage) : List Nat :=
  u64LE (serMsg m).length ++ serMsg m

/-- One iteration of the decode thread's loop (src/core_protocol.rs,
decode thread): `read_u64::<LittleEndian>`, then `vec![0; length]` and
`read_exact`, then `deserialize(&data).unwrap()`.  `none` models either a
read error (the thread logs and breaks) or the deserialize `unwrap`
panicking. -/
def readOneFrame (l : List Nat) : Option (ProtocolMessage × List Nat) := do
  let (length, r) ← readU64LE l
  let (data, rest) ← readBytesN length r
  let (packet, _) ← readMsg data
  pure (packet, rest)

theorem readU64LE_length {l : List Nat} {n : Nat} {r : List Nat}
    (h : readU64LE l = some (n, r)) : r.length + 8 = l.length := by
  match l with
  | b0 :: b1 :: b2 :: b3 :: b4 :: b5 :: b6 :: b7 :: t =>
    simp only [readU64LE, Option.some.injEq, Prod.mk.injEq] at h
    obtain ⟨-, rfl⟩ := h
    simp
  | [] | [_] | [_, _] | [_, _, _] | [_, _, _, _] | [_, _, _, _, _]
  | [_, _, _, _, _, _] | [_, _, _, _, _, _, _] => simp [readU64LE] at h

theorem readOneFrame_length {l : List Nat} {m : ProtocolMessage}
    {rest : List Nat} (h : readOneFrame l = some (m, rest)) :
    rest.length + 8 ≤ l.length := by
  simp only [readOneFrame, Option.bind_eq_bind] at h
  match h1 : readU64LE l with
  | none => rw [h1] at h; simp at h
  | some (n, r) =>
    rw [h1] at h
    simp only [Option.some_bind] at h
    match h2 : readBytesN n r with
    | none => rw [h2] at h; simp at h
    | some (data, rest2) =>
      rw [h2] at h
      simp only [Option.some_bind] at h
      match h3 : readMsg data with
      | none => rw [h3] at h; simp at h
      | some (packet, t) =>
        rw [h3] at h
        simp only [Option.some_bind, pure, Option.some.injEq,
          Prod.mk.injEq] at h
        obtain ⟨-, rfl⟩ := h
        have e1 := readU64LE_length h1
        have e2 := readBytesN_length h2
        omega

/-- The decode thread run to transport EOF: frames are read back to back
until the stream is exhausted; a malformed tail is `none` (the thread
shuts down).  This is the loop of the decode thread folded over the whole
inbound byte stream. -/
def readFrames (l : List Nat) : Option (List ProtocolMessage) :=
  match l with
  | [] => some []
  | b :: t =>
    match h : readOneFrame (b :: t) with
    | none => none
    | some (msg, rest) =>
      match readFrames rest with
      | none => none
      | some msgs => some (msg :: msgs)
termination_by l.length
decreasing_by
  have := readOneFrame_length h
  simp only [List.length_cons] at *
  omega

theorem readOneFrame_writeFrame (a : ProtocolMessage) (rest : List Nat)
    (ha : wfMsg a) (hla : (serMsg a).length < 2 ^ 64) :
    readOneFrame (writeFrame a ++ rest) = some (a, rest) := by
  simp only [writeFrame, readOneFrame, List.append_assoc, Option.bind_eq_bind]
  rw [readU64LE_u64LE _ _ hla]
  simp only [Option.some_bind]
  rw [readBytesN_append]
  simp only [Option.some_bind]
  have := readMsg_serMsg a [] ha
  rw [List.append_nil] at this
  rw [this]
  rfl

theorem readFrames_nil : readFrames [] = some [] := by
  rw [readFrames]

theorem readFrames_cons (b : Nat) (t : List Nat) :
    readFrames (b :: t) = match readOneFrame (b :: t) with
      | none => none
      | some (msg, rest) =>
        match readFrames rest with
        | none => none
        | some msgs => some (msg :: msgs) := by
  rw [readFrames]
  split <;> simp [*]

theorem readFrames_writeFrame (a : ProtocolMessage) (rest : List Nat)
    (ha : wfMsg a) (hla : (serMsg a).length < 2 ^ 64) :
    readFrames (writeFrame a ++ rest) = (readFrames rest).map (a :: ·) := by
  have hcons : ∃ b t, writeFrame a ++ rest = b :: t := by
    cases hw : writeFrame a ++ rest with
    | nil =>
      exfalso
      have : (writeFrame a ++ rest).length = 0 := by rw [hw]; rfl
      simp only [writeFrame, u64LE, List.length_append, List.cons_append,
        List.length_cons] at this
      omega
    | cons b t => exact ⟨b, t, rfl⟩
  obtain ⟨b, t, hbt⟩ := hcons
  rw [hbt, readFrames_cons, ← hbt, readOneFrame_writeFrame a rest ha hla]
  cases h2 : readFrames rest <;> simp [h2]

/-- One head-of-loop step of the decode thread (src/core_protocol.rs,
decode thread): read the `u64` little-endian frame length; on a read
error log and break (`shutdown`), otherwise proceed to allocate
`vec![0; length]` and `read_exact` it (`readBody`).  The source checks
the length against nothing before allocating. -/
inductive DecodeStep where
  | shutdown
  | readBody (length : Nat) (rest : List Nat)
deriving DecidableEq

/-- The decode thread's handling of a frame header. -/
def decodeReadLength (stream : List Nat) : DecodeStep :=
  match readU64LE stream with
  | none => .shutdown
  | some (length, rest) => .readBody length rest

theorem decodeReadLength_u64LE (length : Nat) (rest : List Nat)
    (h : length < 2 ^ 64) :
    decodeReadLength (u64LE length ++ rest) = .readBody length rest := by
  simp only [decodeReadLength, readU64LE_u64LE _ _ h]

/-- The pending-reply table `callbacks : HashMap<u64, Sender<..>>`
(src/core_protocol.rs), modelled as an association list with unique keys;
the channel a waiter listens on is abstracted by a numeric identifier. -/
abbrev PendingTable := List (Nat × Nat)

/-- `HashMap::remove(&id)` returning the removed channel and the table
without that key. -/
def tableRemove (t : PendingTable) (id : Nat) : Option (Nat × PendingTable) :=
  match t with
  | [] => none
  | (k, ch) :: rest =>
    if k = id then some (ch, rest)
    else (tableRemove rest id).map (fun p => (p.1, (k, ch) :: p.2))

/-- `HashMap::insert(id, ch)` (replacing any previous entry for `id`). -/
def tableInsert (t : PendingTable) (id ch : Nat) : PendingTable :=
  match t with
  | [] => [(id, ch)]
  | (k, v) :: rest =>
    if k = id then (id, ch) :: rest else (k, v) :: tableInsert rest id ch

/-- `HashMap::get`-style lookup. -/
def tableLookup (t : PendingTable) (id : Nat) : Option Nat :=
  match t with
  | [] => none
  | (k, ch) :: rest => if k = id then some ch else tableLookup rest id

theorem tableLookup_tableInsert (t : PendingTable) (id ch : Nat) :
    tableLookup (tableInsert t id ch) id = some ch := by
  induction t with
  | nil => simp [tableInsert, tableLookup]
  | cons p rest ih =>
    obtain ⟨k, v⟩ := p
    by_cases hk : k = id
    · subst hk
      simp [tableInsert, tableLookup]
    · simp [tableInsert, tableLookup, hk, ih]

/-- What the inbound dispatcher does with one decoded packet
(src/core_protocol.rs, incoming thread).  A response is forwarded to the
channel removed from the table —
`incoming_callbacks.lock().unwrap().remove(&packet.id).unwrap().send(..)`:
when the id has no entry, the `remove(..).unwrap()` panics (`none`).
A non-response is forwarded to the event queue. -/
inductive DispatchAction where
  | wake (channel : Nat) (response : ProtocolMessageType)
  | event (m : ProtocolMessage)
deriving DecidableEq

/-- One iteration of the incoming dispatcher loop. -/
def dispatchStep (t : PendingTable) (packet : ProtocolMessage) :
    Option (PendingTable × DispatchAction) :=
  if packet.data.is_response then
    match tableRemove t packet.id with
    | none => none
    | some (ch, t2) => some (t2, .wake ch packet.data)
  else some (t, .event packet)

/-- Result of running the incoming dispatcher until its inbox closes
(or it panics). -/
structure DispatchResult where
  table : PendingTable
  actions : List DispatchAction
  panicked : Bool
deriving DecidableEq

/-- The incoming dispatcher run over the whole sequence of decoded
packets.  When `decode_rx.recv()` fails (the decode thread is gone —
transport EOF), the loop just `break`s: the final table is returned
untouched and no further action is taken — in particular the pending
entries are NOT drained and no waiter is woken. -/
def dispatchRun (t : PendingTable) : List ProtocolMessage → DispatchResult
  | [] => ⟨t, [], false⟩
  | p :: ps =>
    match dispatchStep t p with
    | none => ⟨t, [], true⟩
    | some (t2, a) =>
      let r := dispatchRun t2 ps
      ⟨r.table, a :: r.actions, r.panicked⟩

/-- `ProtocolFuture::poll` (src/core_protocol.rs): the result the `recv`
produced, or `disconnected` when every `Sender` clone was dropped. -/
inductive RecvOutcome where
  | msg (m : ProtocolMessageType)
  | disconnected
deriving DecidableEq

/-- `ProtocolFuture::poll`: panics (`none`) when polled twice
(`already_recv`) and on `recv().unwrap()` failing after a disconnect;
there is no cancellation value — a disconnected channel is a panic, not
a signal. -/
def ProtocolFuture.poll (already_recv : Bool) (r : RecvOutcome) :
    Option ProtocolMessageType :=
  if already_recv then none
  else match r with
    | .msg m => some m
    | .disconnected => none

/-- Events the outgoing router emits, in program order
(src/core_protocol.rs, outgoing thread): the table insert for a blocking
payload, then the hand-off of the assembled `ProtocolMessage` to the
encode queue. -/
inductive RouterEvent where
  | insert (id ch : Nat)
  | handOff (m : ProtocolMessage)
deriving DecidableEq

/-- State owned by the outgoing router: its `packet_counter` and the
shared pending-reply table. -/
structure RouterState where
  packet_counter : Nat
  table : PendingTable
deriving DecidableEq

/-- One iteration of the outgoing router loop, for a dequeued
`(channel, packet, id)` tuple: allocate `packet_id` (the provided `id`,
or the counter, which is then incremented — a wrapping `u64`), insert
`packet_id → channel` into the table if `packet.is_blocking()`, and only
then hand `ProtocolMessage { id: packet_id, data: packet }` to the
encoder. -/
def routerStep (s : RouterState) (channel : Nat)
    (packet : ProtocolMessageType) (id : Option Nat) :
    RouterState × List RouterEvent :=
  let packet_id := match id with
    | some v => v
    | none => s.packet_counter
  let counter2 := match id with
    | some _ => s.packet_counter
    | none => (s.packet_counter + 1) % 2 ^ 64
  let (table2, insertEvents) :=
    if packet.is_blocking then
      (tableInsert s.table packet_id channel,
       [RouterEvent.insert packet_id channel])
    else (s.table, [])
  (⟨counter2, table2⟩, insertEvents ++ [.handOff ⟨packet_id, packet⟩])

/-- The audio sink's "done" test (src/audio/cpal/mod.rs,
`RodioBackend::get_done_callback`): occupancy (an `i64` count of queued
samples, which the consuming iterator can drive negative) compared with
`sample_rate as i64 / 60 * 2`. -/
def audioDone (sample_rate occupancy : Int) : Bool :=
  occupancy < sample_rate / 60 * 2

/-- Observable steps of one iteration of the frontend ticker thread
(src/frontend/protocol.rs, the `thread::spawn` loop). -/
inductive TickerAction where
  | sendRun (futureKept : Bool)
  | pollRunFuture
  | sleepMs (ms : Nat)
  | recvFrameSignal
deriving DecidableEq

/-- The busy-wait loop `while !audio_size_callback() { sleep(1ms) }`,
driven by the sequence of occupancy values the callback observes; `none`
when the supplied observations run out before the threshold test
passes. -/
def busyWait (sample_rate : Int) : List Int → Option (List TickerAction)
  | [] => none
  | occ :: rest =>
    if audioDone sample_rate occ then some []
    else (busyWait sample_rate rest).map (.sleepMs 1 :: ·)

/-- One iteration of the ticker loop as written in the source:
`protocol.send(ProtocolMessageType::Run);` — the returned future is
discarded, hence `sendRun false` and never a `pollRunFuture` — then the
1 ms busy-wait on the audio occupancy, then `frame_rx.recv()` (the
per-frame signal the main loop sends after handling a `VideoRefresh`). -/
def tickerIteration (sample_rate : Int) (occupancies : List Int) :
    Option (List TickerAction) :=
  (busyWait sample_rate occupancies).map
    (fun waits => .sendRun false :: waits ++ [.recvFrameSignal])

theorem busyWait_actions (sample_rate : Int) (occupancies : List Int)
    (waits : List TickerAction)
    (h : busyWait sample_rate occupancies = some waits) :
    waits = List.replicate waits.length (.sleepMs 1) := by
  induction occupancies generalizing waits with
  | nil => simp [busyWait] at h
  | cons occ rest ih =>
    simp only [busyWait] at h
    by_cases hd : audioDone sample_rate occ
    · rw [if_pos hd] at h
      cases h
      rfl
    · rw [if_neg hd] at h
      match h2 : busyWait sample_rate rest with
      | none => rw [h2] at h; simp at h
      | some w2 =>
        rw [h2] at h
        simp only [Option.map_some', Option.some.injEq] at h
        subst h
        simp only [List.length_cons, List.replicate_succ, List.cons.injEq,
          true_and]
        exact ih w2 h2

/-- Environment commands (src/retro_types.rs `RetroEnvironment`). -/
inductive RetroEnvironment where
  | SetRotation | GetOverscan | GetCanDup | SetMessage | Shutdown
  | SetPerformanceLevel | GetSystemDirectory | SetPixelFormat
  | SetInputDescriptors | SetKeyboardCallback | SetDiskControlInterface
  | SetHWRender | GetVariable | SetVariables | GetVariableUpdate
  | SetSupportNoGame | GetLibretroPath | SetAudioCallback
  | SetFrameTimeCallback | GetRumbleInterface | GetInputDeviceCapabilities
  | GetSensorInterface | GetCameraInterface | GetLogInterface
  | GetPerfInterface | GetLocationInterface | GetCoreAssetsDirectory
  | GetSaveDirectory | SetSystemAVInfo | SetProcAddress | SetSubsystemInfo
  | SetControllerInfo | SetMemoryMaps | SetGeometry | GetUsername
  | GetLanguage | GetCurrentSoftwareFramebuffer | SetHWSharedContext
  | GetVFSInterface
deriving DecidableEq

/-- src/retro_types.rs `RetroEnvironment::from_command_id`. -/
def from_command_id (id : Nat) : Option RetroEnvironment :=
  match id with
  | 1 => some .SetRotation
  | 2 => some .GetOverscan
  | 3 => some .GetCanDup
  | 6 => some .SetMessage
  | 7 => some .Shutdown
  | 8 => some .SetPerformanceLevel
  | 9 => some .GetSystemDirectory
  | 10 => some .SetPixelFormat
  | 11 => some .SetInputDescriptors
  | 12 => some .SetKeyboardCallback
  | 13 => some .SetDiskControlInterface
  | 14 => some .SetHWRender
  | 15 => some .GetVariable
  | 16 => some .SetVariables
  | 17 => some .GetVariableUpdate
  | 18 => some .SetSupportNoGame
  | 19 => some .GetLibretroPath
  | 21 => some .SetFrameTimeCallback
  | 22 => some .SetAudioCallback
  | 23 => some .GetRumbleInterface
  | 24 => some .GetInputDeviceCapabilities
  | 25 => some .GetSensorInterface
  | 26 => some .GetCameraInterface
  | 27 => some .GetLogInterface
  | 28 => some .GetPerfInterface
  | 29 => some .GetLocationInterface
  | 30 => some .GetCoreAssetsDirectory
  | 31 => some .GetSaveDirectory
  | 32 => some .SetSystemAVInfo
  | 33 => some .SetProcAddress
  | 34 => some .SetSubsystemInfo
  | 35 => some .SetControllerInfo
  | 36 => some .SetMemoryMaps
  | 37 => some .SetGeometry
  | 38 => some .GetUsername
  | 39 => some .GetLanguage
  | 40 => some .GetCurrentSoftwareFramebuffer
  | 44 => some .SetHWSharedContext
  | 45 => some .GetVFSInterface
  | _ => none

/-- The `RetroEnvironment::GetVariable` arm of `environment_callback`
(src/backend/callbacks.rs): the message it sends is
`GetVariable(key)` (blocking), the response is matched —
`GetVariableResponse(result)` binds `result` and any other variant
panics — and then the arm returns `false` unconditionally; the
out-pointer write is absent (it only exists in commented-out code
behind a TODO).  The model returns the (written out-pointer value,
returned bool) pair, `none` for the panic. -/
def getVariableArm (response : ProtocolMessageType) :
    Option (Option (List Nat) × Bool) :=
  match response with
  | .GetVariableResponse _ => some (none, false)
  | _ => none

/-- Framebuffer formats (src/retro_types.rs `RetroPixelFormat`). -/
inductive RetroPixelFormat where
  | Format0RGB1555
  | FormatXRGB8888
  | FormatRGB565
deriving DecidableEq

/-- src/retro_types.rs `RetroPixelFormat::get_pixel_size`. -/
def get_pixel_size : RetroPixelFormat → Nat
  | .Format0RGB1555 => 2
  | .FormatXRGB8888 => 4
  | .FormatRGB565 => 2

/-- The byte position the source computes for pixel `(x, y)`:
`(y * width + x) * pixel_size` for the 16-bit formats and
`y * width * pixel_size + x * pixel_size` for `XRGB8888`. -/
def pixelPos (f : RetroPixelFormat) (w y x : Nat) : Nat :=
  match f with
  | .FormatXRGB8888 => y * w * 4 + x * 4
  | f => (y * w + x) * get_pixel_size f

/-- The four RGBA output bytes for one input pixel at byte position `pos`
(the bodies of the three per-format loops of
`RetroPixelFormat::convert`); `d[i]?` returning `none` models the Rust
slice-indexing panic.  For `0RGB1555` the source computes the channel as
`((c as f64) / 32.0 * 256.0) as u8`, which is exact for the masked
5-bit channel values and truncates to `c * 256 / 32`; for `RGB565` the
`u16` arithmetic `(c * 527 + 23) >> 6` is cast `as u8`, hence `% 256`. -/
def convertPixel (f : RetroPixelFormat) (d : List Nat) (pos : Nat) :
    Option (List Nat) :=
  match f with
  | .Format0RGB1555 => do
    let b0 ← d[pos]?
    let b1 ← d[pos + 1]?
    let data := (b1 <<< 8) ||| b0
    let r := (data >>> 10) &&& 31
    let g := (data >>> 5) &&& 31
    let b := (data >>> 0) &&& 31
    some [r * 256 / 32, g * 256 / 32, b * 256 / 32, 255]
  | .FormatXRGB8888 => do
    let c2 ← d[pos + 2]?
    let c1 ← d[pos + 1]?
    let c0 ← d[pos]?
    some [c2, c1, c0, 255]
  | .FormatRGB565 => do
    let b0 ← d[pos]?
    let b1 ← d[pos + 1]?
    let data := (b1 <<< 8) ||| b0
    let r := (data >>> 11) &&& 31
    let g := (data >>> 5) &&& 63
    let b := (data >>> 0) &&& 31
    some [((r * 527 + 23) >>> 6) % 256, ((g * 259 + 33) >>> 6) % 256,
          ((b * 527 + 23) >>> 6) % 256, 255]

/-- The inner `for x in 0..width` loop, pushing four bytes per pixel. -/
def convertRowGo (f : RetroPixelFormat) (d : List Nat) (w y : Nat) :
    List Nat → Option (List Nat)
  | [] => some []
  | x :: xs => do
    let px ← convertPixel f d (pixelPos f w y x)
    let rest ← convertRowGo f d w y xs
    pure (px ++ rest)

/-- The outer `for y in 0..height` loop. -/
def convertRows (f : RetroPixelFormat) (d : List Nat) (w : Nat) :
    List Nat → Option (List Nat)
  | [] => some []
  | y :: ys => do
    let row ← convertRowGo f d w y (List.range w)
    let rest ← convertRows f d w ys
    pure (row ++ rest)

/-- src/retro_types.rs `RetroPixelFormat::convert`: both loops, in
iteration order; `none` models an indexing panic. -/
def convert (f : RetroPixelFormat) (d : List Nat) (w h : Nat) :
    Option (List Nat) :=
  convertRows f d w (List.range h)

/-- The highest offset past `pos` the convert loops read for one pixel:
`pos + 1` for the 16-bit formats, `pos + 2` for `XRGB8888` (the fourth
input byte of an `XRGB8888` pixel is never read). -/
def lastAccess : RetroPixelFormat → Nat
  | .FormatXRGB8888 => 2
  | _ => 1

/-- Every fourth byte, starting at offset 3, is the alpha value 255. -/
def alphaAt (l : List Nat) : Prop :=
  ∀ i, 4 * i + 3 < l.length → l[4 * i + 3]? = some 255

theorem alphaAt_append {a b : List Nat} (ha4 : a.length % 4 = 0)
    (ha : alphaAt a) (hb : alphaAt b) : alphaAt (a ++ b) := by
  intro i hi
  simp only [List.length_append] at hi
  by_cases hcase : 4 * i + 3 < a.length
  · rw [List.getElem?_append_left hcase]
    exact ha i hcase
  · have h4 : a.length ≤ 4 * i + 3 := Nat.not_lt.1 hcase
    rw [List.getElem?_append_right h4]
    obtain ⟨k, hk⟩ : ∃ k, a.length = 4 * k := ⟨a.length / 4, by omega⟩
    have he : 4 * i + 3 - a.length = 4 * (i - k) + 3 := by omega
    rw [he]
    exact hb (i - k) (by omega)

theorem convertPixel_shape {f : RetroPixelFormat} {d : List Nat} {pos : Nat}
    {px : List Nat} (h : convertPixel f d pos = some px) :
    px.length = 4 ∧ px[3]? = some 255 := by
  cases f with
  | Format0RGB1555 =>
    simp only [convertPixel, Option.bind_eq_bind] at h
    cases h0 : d[pos]? with
    | none => rw [h0] at h; simp at h
    | some b0 =>
      rw [h0] at h
      simp only [Option.some_bind] at h
      cases h1 : d[pos + 1]? with
      | none => rw [h1] at h; simp at h
      | some b1 =>
        rw [h1] at h
        simp only [Option.some_bind, Option.some.injEq] at h
        subst h
        exact ⟨rfl, rfl⟩
  | FormatXRGB8888 =>
    simp only [convertPixel, Option.bind_eq_bind] at h
    cases h2 : d[pos + 2]? with
    | none => rw [h2] at h; simp at h
    | some c2 =>
      rw [h2] at h
      simp only [Option.some_bind] at h
      cases h1 : d[pos + 1]? with
      | none => rw [h1] at h; simp at h
      | some c1 =>
        rw [h1] at h
        simp only [Option.some_bind] at h
        cases h0 : d[pos]? with
        | none => rw [h0] at h; simp at h
        | some c0 =>
          rw [h0] at h
          simp only [Option.some_bind, Option.some.injEq] at h
          subst h
          exact ⟨rfl, rfl⟩
  | FormatRGB565 =>
    simp only [convertPixel, Option.bind_eq_bind] at h
    cases h0 : d[pos]? with
    | none => rw [h0] at h; simp at h
    | some b0 =>
      rw [h0] at h
      simp only [Option.some_bind] at h
      cases h1 : d[pos + 1]? with
      | none => rw [h1] at h; simp at h
      | some b1 =>
        rw [h1] at h
        simp only [Option.some_bind, Option.some.injEq] at h
        subst h
        exact ⟨rfl, rfl⟩

theorem convertPixel_isSome {f : RetroPixelFormat} {d : List Nat} {pos : Nat}
    (h : pos + lastAccess f < d.length) :
    ∃ px, convertPixel f d pos = some px := by
  cases f with
  | Format0RGB1555 =>
    have h1 : pos + 1 < d.length := h
    have h0 : pos < d.length := by omega
    simp only [convertPixel, List.getElem?_eq_getElem h0,
      List.getElem?_eq_getElem h1, Option.bind_eq_bind, Option.some_bind]
    exact ⟨_, rfl⟩
  | FormatXRGB8888 =>
    have h2 : pos + 2 < d.length := h
    have h1 : pos + 1 < d.length := by omega
    have h0 : pos < d.length := by omega
    simp only [convertPixel, List.getElem?_eq_getElem h0,
      List.getElem?_eq_getElem h1, List.getElem?_eq_getElem h2,
      Option.bind_eq_bind, Option.some_bind]
    exact ⟨_, rfl⟩
  | FormatRGB565 =>
    have h1 : pos + 1 < d.length := h
    have h0 : pos < d.length := by omega
    simp only [convertPixel, List.getElem?_eq_getElem h0,
      List.getElem?_eq_getElem h1, Option.bind_eq_bind, Option.some_bind]
    exact ⟨_, rfl⟩

theorem convertPixel_inBounds {f : RetroPixelFormat} {d : List Nat}
    {pos : Nat} {px : List Nat} (h : convertPixel f d pos = some px) :
    pos + lastAccess f < d.length := by
  cases f with
  | Format0RGB1555 =>
    simp only [convertPixel, Option.bind_eq_bind] at h
    cases h0 : d[pos]? with
    | none => rw [h0] at h; simp at h
    | some b0 =>
      rw [h0] at h
      simp only [Option.some_bind] at h
      cases h1 : d[pos + 1]? with
      | none => rw [h1] at h; simp at h
      | some b1 =>
        obtain ⟨hb, -⟩ := List.getElem?_eq_some_iff.1 h1
        exact hb
  | FormatXRGB8888 =>
    simp only [convertPixel, Option.bind_eq_bind] at h
    cases h2 : d[pos + 2]? with
    | none => rw [h2] at h; simp at h
    | some c2 =>
      obtain ⟨hb, -⟩ := List.getElem?_eq_some_iff.1 h2
      exact hb
  | FormatRGB565 =>
    simp only [convertPixel, Option.bind_eq_bind] at h
    cases h0 : d[pos]? with
    | none => rw [h0] at h; simp at h
    | some b0 =>
      rw [h0] at h
      simp only [Option.some_bind] at h
      cases h1 : d[pos + 1]? with
      | none => rw [h1] at h; simp at h
      | some b1 =>
        obtain ⟨hb, -⟩ := List.getElem?_eq_some_iff.1 h1
        exact hb

theorem convertRowGo_spec {f : RetroPixelFormat} {d : List Nat} {w y : Nat}
    {xs : List Nat} {out : List Nat}
    (h : convertRowGo f d w y xs = some out) :
    out.length = 4 * xs.length ∧ alphaAt out := by
  induction xs generalizing out with
  | nil =>
    simp only [convertRowGo, Option.some.injEq] at h
    subst h
    exact ⟨rfl, fun i hi => by simp at hi⟩
  | cons x t ih =>
    simp only [convertRowGo, Option.bind_eq_bind] at h
    cases hp : convertPixel f d (pixelPos f w y x) with
    | none => rw [hp] at h; simp at h
    | some px =>
      rw [hp] at h
      simp only [Option.some_bind] at h
      cases hr : convertRowGo f d w y t with
      | none => rw [hr] at h; simp at h
      | some rest =>
        rw [hr] at h
        simp only [Option.some_bind, pure, Option.some.injEq] at h
        subst h
        obtain ⟨hl, hrest⟩ := ih hr
        obtain ⟨hplen, hpa⟩ := convertPixel_shape hp
        refine ⟨by simp [hplen, hl, List.length_cons]; ring, ?_⟩
        apply alphaAt_append (by omega) ?_ hrest
        intro i hi
        rw [hplen] at hi
        have hi0 : i = 0 := by omega
        subst hi0
        simpa using hpa

theorem convertRowGo_isSome {f : RetroPixelFormat} {d : List Nat}
    {w y : Nat} {xs : List Nat}
    (h : ∀ x ∈ xs, pixelPos f w y x + lastAccess f < d.length) :
    ∃ out, convertRowGo f d w y xs = some out := by
  induction xs with
  | nil => exact ⟨[], rfl⟩
  | cons x t ih =>
    obtain ⟨px, hp⟩ := convertPixel_isSome (h x (List.mem_cons_self x t))
    obtain ⟨rest, hr⟩ := ih (fun z hz => h z (List.mem_cons_of_mem x hz))
    exact ⟨px ++ rest, by
      simp only [convertRowGo, Option.bind_eq_bind, hp, Option.some_bind,
        hr]
      rfl⟩

theorem convertRowGo_inBounds {f : RetroPixelFormat} {d : List Nat}
    {w y : Nat} {xs : List Nat} {out : List Nat}
    (h : convertRowGo f d w y xs = some out) :
    ∀ x ∈ xs, pixelPos f w y x + lastAccess f < d.length := by
  induction xs generalizing out with
  | nil => intro x hx; simp at hx
  | cons x t ih =>
    intro z hz
    simp only [convertRowGo, Option.bind_eq_bind] at h
    cases hp : convertPixel f d (pixelPos f w y x) with
    | none => rw [hp] at h; simp at h
    | some px =>
      rw [hp] at h
      simp only [Option.some_bind] at h
      cases hr : convertRowGo f d w y t with
      | none => rw [hr] at h; simp at h
      | some rest =>
        rcases List.mem_cons.1 hz with hz1 | hz2
        · subst hz1
          exact convertPixel_inBounds hp
        · exact ih hr z hz2

theorem convertRows_spec {f : RetroPixelFormat} {d : List Nat} {w : Nat}
    {ys : List Nat} {out : List Nat} (h : convertRows f d w ys = some out) :
    out.length = 4 * w * ys.length ∧ alphaAt out := by
  induction ys generalizing out with
  | nil =>
    simp only [convertRows, Option.some.injEq] at h
    subst h
    exact ⟨by simp, fun i hi => by simp at hi⟩
  | cons y t ih =>
    simp only [convertRows, Option.bind_eq_bind] at h
    cases hrow : convertRowGo f d w y (List.range w) with
    | none => rw [hrow] at h; simp at h
    | some row =>
      rw [hrow] at h
      simp only [Option.some_bind] at h
      cases hrest : convertRows f d w t with
      | none => rw [hrest] at h; simp at h
      | some rest =>
        rw [hrest] at h
        simp only [Option.some_bind, pure, Option.some.injEq] at h
        subst h
        obtain ⟨hl1, ha1⟩ := convertRowGo_spec hrow
        obtain ⟨hl2, ha2⟩ := ih hrest
        rw [List.length_range] at hl1
        refine ⟨by simp [hl1, hl2, List.length_cons]; ring, ?_⟩
        exact alphaAt_append (by omega) ha1 ha2

theorem convertRows_isSome {f : RetroPixelFormat} {d : List Nat} {w : Nat}
    {ys : List Nat}
    (h : ∀ y ∈ ys, ∀ x ∈ List.range w,
      pixelPos f w y x + lastAccess f < d.length) :
    ∃ out, convertRows f d w ys = some out := by
  induction ys with
  | nil => exact ⟨[], rfl⟩
  | cons y t ih =>
    obtain ⟨row, hrow⟩ := convertRowGo_isSome (h y (List.mem_cons_self y t))
    obtain ⟨rest, hrest⟩ := ih (fun z hz => h z (List.mem_cons_of_mem y hz))
    exact ⟨row ++ rest, by
      simp only [convertRows, Option.bind_eq_bind, hrow, Option.some_bind,
        hrest]
      rfl⟩

theorem convertRows_inBounds {f : RetroPixelFormat} {d : List Nat} {w : Nat}
    {ys : List Nat} {out : List Nat} (h : convertRows f d w ys = some out) :
    ∀ y ∈ ys, ∀ x ∈ List.range w,
      pixelPos f w y x + lastAccess f < d.length := by
  induction ys generalizing out with
  | nil => intro y hy; simp at hy
  | cons y t ih =>
    intro z hz
    simp only [convertRows, Option.bind_eq_bind] at h
    cases hrow : convertRowGo f d w y (List.range w) with
    | none => rw [hrow] at h; simp at h
    | some row =>
      rw [hrow] at h
      simp only [Option.some_bind] at h
      cases hrest : convertRows f d w t with
      | none => rw [hrest] at h; simp at h
      | some rest =>
        rcases List.mem_cons.1 hz with hz1 | hz2
        · subst hz1
          exact convertRowGo_inBounds hrow
        · exact ih hrest z hz2

theorem pixelPos_eq (f : RetroPixelFormat) (w y x : Nat) :
    pixelPos f w y x = (y * w + x) * get_pixel_size f := by
  cases f <;> simp [pixelPos, get_pixel_size] <;> ring

theorem lastAccess_lt_size (f : RetroPixelFormat) :
    lastAccess f < get_pixel_size f := by
  cases f <;> simp [lastAccess, get_pixel_size]

theorem pixelPos_bound {f : RetroPixelFormat} {w h y x : Nat}
    (hy : y < h) (hx : x < w) :
    pixelPos f w y x + lastAccess f < w * h * get_pixel_size f := by
  rw [pixelPos_eq]
  have hla := lastAccess_lt_size f
  have h1 : y * w + x + 1 ≤ h * w := by
    calc y * w + x + 1 ≤ y * w + w := by omega
    _ = (y + 1) * w := by ring
    _ ≤ h * w := Nat.mul_le_mul_right w hy
  calc (y * w + x) * get_pixel_size f + lastAccess f
      < (y * w + x) * get_pixel_size f + get_pixel_size f := by omega
    _ = (y * w + x + 1) * get_pixel_size f := by ring
    _ ≤ (h * w) * get_pixel_size f := Nat.mul_le_mul_right _ h1
    _ = w * h * get_pixel_size f := by ring

/-- The shortest input the convert loops can survive: `w * h * 2` for the
16-bit formats, but only `w * h * 4 - 1` for `XRGB8888`, whose fourth
input byte per pixel is never read. -/
def convertMinLen (f : RetroPixelFormat) (w h : Nat) : Nat :=
  match f with
  | .FormatXRGB8888 => w * h * 4 - 1
  | _ => w * h * 2

/-- C1: the claim says that on transport EOF with blocking sends
outstanding every waiting `ProtocolFuture` is woken exactly once with a
cancellation signal and no thread is left parked.  In the source the
incoming dispatcher simply `break`s when `decode_rx.recv()` fails: with
one outstanding waiter (pending table `[(5, 0)]`) and an EOF (no further
decoded packets), the run ends with the table untouched and no action —
no wake, no cancellation — emitted; and `ProtocolFuture::poll` on a
disconnected channel is `recv().unwrap()`, a panic (`none`), not a
cancellation value. -/
theorem c1_eof_leaves_waiter_parked :
    dispatchRun [(5, 0)] [] = ⟨[(5, 0)], [], false⟩ ∧
    ProtocolFuture.poll false .disconnected = none :=
  ⟨rfl, rfl⟩

/-- C2 counterexample: the claim says a response whose id has no
pending-table entry is logged and dropped and the adapter keeps running.
At the concrete input — empty pending table, incoming `RunResponse` with
id 0 — the dispatcher's `remove(&packet.id).unwrap()` panics (`none`),
refuting the log-and-drop behaviour. -/
theorem c2_counterexample :
    dispatchStep [] ⟨0, .RunResponse⟩ = none := rfl

/-- C2 amended: when the inbound dispatcher receives a message with
`is_response() = true` whose id has no entry in the pending-reply table,
the `unwrap` of the table removal panics, killing the dispatcher thread;
the message is not dropped-with-the-adapter-running. -/
theorem c2_unknown_response_id_panics (t : PendingTable)
    (p : ProtocolMessage) (hresp : p.data.is_response = true)
    (hmiss : tableRemove t p.id = none) :
    dispatchStep t p = none := by
  simp [dispatchStep, hresp, hmiss]

/-- C2 witness: the amended claim at a concrete input (a one-entry table
and a response with a different id). -/
theorem c2_unknown_response_id_panics_witness :
    dispatchStep [(3, 7)] ⟨9, .APIVersionResponse 1⟩ = none :=
  c2_unknown_response_id_panics [(3, 7)] ⟨9, .APIVersionResponse 1⟩ rfl rfl

/-- C3: for every blocking outbound payload, the outgoing router's event
trace is the table insert `packet_id → channel` immediately followed by
the hand-off to the encoder — the insert strictly precedes the hand-off —
and in the post-state the waiter is registered under `packet_id`, so a
response arriving right after transmission finds it. -/
theorem c3_insert_before_handoff (s : RouterState) (channel : Nat)
    (packet : ProtocolMessageType) (optId : Option Nat)
    (hb : packet.is_blocking = true) :
    (routerStep s channel packet optId).2 =
      [.insert (optId.getD s.packet_counter) channel,
       .handOff ⟨optId.getD s.packet_counter, packet⟩] ∧
    tableLookup (routerStep s channel packet optId).1.table
      (optId.getD s.packet_counter) = some channel := by
  cases optId <;>
    simp [routerStep, hb, Option.getD, tableLookup_tableInsert]

/-- C3 witness: a fresh blocking `Run` on a router with counter 0 and an
empty table. -/
theorem c3_insert_before_handoff_witness :
    (routerStep ⟨0, []⟩ 2 .Run none).2 =
      [.insert 0 2, .handOff ⟨0, .Run⟩] ∧
    tableLookup (routerStep ⟨0, []⟩ 2 .Run none).1.table 0 = some 2 :=
  c3_insert_before_handoff ⟨0, []⟩ 2 .Run none rfl

/-- C4: `is_blocking` is true exactly on the tags InputState, APIVersion,
SystemInfo, GetVariable, AVInfo, Run, and `is_response` exactly on
InputResponse, SystemInfoResponse, APIVersionResponse,
GetVariableResponse, AVInfoResponse, RunResponse — both are functions of
the tag alone — and a bincode serialization round-trip returns the
message unchanged, so both predicate values survive the round-trip. -/
theorem c4_predicates_pure_and_roundtrip (m : ProtocolMessageType)
    (r : List Nat) (h : wfType m) :
    (m.is_blocking = true ↔ tagOf m ∈ blockingTags) ∧
    (m.is_response = true ↔ tagOf m ∈ responseTags) ∧
    readType (serType m ++ r) = some (m, r) := by
  refine ⟨?_, ?_, readType_serType m r h⟩ <;>
    cases m <;>
      simp [ProtocolMessageType.is_blocking, ProtocolMessageType.is_response,
        tagOf, blockingTags, responseTags]

/-- C4 witness: the predicate and round-trip facts at the concrete
message `Run`. -/
theorem c4_predicates_pure_and_roundtrip_witness :
    ((ProtocolMessageType.Run).is_blocking = true ↔
      tagOf .Run ∈ blockingTags) ∧
    ((ProtocolMessageType.Run).is_response = true ↔
      tagOf .Run ∈ responseTags) ∧
    readType (serType .Run ++ []) = some (.Run, []) :=
  c4_predicates_pure_and_roundtrip .Run [] trivial

/-- C5: the claim says the ticker, after each blocking `send(Run)`, first
waits for the `RunResponse`, then sleeps in 1 ms steps until the audio
occupancy drops below `sample_rate / 60 * 2`, and only then issues the
next `Run`.  In the source the future returned by
`protocol.send(ProtocolMessageType::Run)` is discarded — the iteration
trace contains `sendRun false` and no `pollRunFuture` — and after the
1 ms-step busy-wait the ticker additionally blocks on the main loop's
per-`VideoRefresh` frame signal.  Concretely, at `sample_rate = 32000`
(threshold `32000 / 60 * 2 = 1066`) with occupancy readings 2000 then
500, the iteration is `sendRun false`, one 1 ms sleep, then
`recvFrameSignal` — nothing ever waits on the `Run` future. -/
theorem c5_ticker_never_waits_for_run_response :
    tickerIteration 32000 [2000, 500] =
      some [.sendRun false, .sleepMs 1, .recvFrameSignal] ∧
    TickerAction.pollRunFuture ∉
      [TickerAction.sendRun false, .sleepMs 1, .recvFrameSignal] ∧
    audioDone 32000 2000 = false ∧
    audioDone 32000 500 = true ∧
    (32000 : Int) / 60 * 2 = 1066 := by
  decide

/-- C6: the claim says the environment callback's GetVariable command
writes the value carried by the `GetVariableResponse` into the core's
out-pointer and returns true exactly when a value was found.  In the
source, command id 15 decodes to GetVariable and the sent
`GetVariable(key)` message is blocking — but the arm ignores the carried
value, never writes the out-pointer, and returns `false`
unconditionally: with the found value `[118]` the arm still yields
(no write, `false`).  A non-`GetVariableResponse` reply panics. -/
theorem c6_get_variable_arm_never_writes :
    from_command_id 15 = some .GetVariable ∧
    (ProtocolMessageType.GetVariable [107]).is_blocking = true ∧
    getVariableArm (.GetVariableResponse (some [118])) =
      some (none, false) ∧
    getVariableArm .RunResponse = none := by
  decide

/-- C7 counterexample: the claim says a frame length exceeding a
configured cap (suggested 64 MiB) fails fatally with a distinct error
without reading or allocating the body.  At the concrete oversize header
`len = 2 ^ 40` the decode thread instead proceeds straight to
`vec![0; 2 ^ 40]` / `read_exact` — a body read, not an error. -/
theorem c7_counterexample :
    decodeReadLength (u64LE (2 ^ 40)) = .readBody (2 ^ 40) [] := by
  have h := decodeReadLength_u64LE (2 ^ 40) [] (by norm_num)
  simpa using h

/-- C7 amended: the decoder imposes no cap at all — for every frame
length `L` it proceeds to allocate and read exactly `L` body bytes, and
on its shutdown path the pending-reply waiters are not cancelled (the
dispatcher returns the table untouched with no actions). -/
theorem c7_no_length_cap (L : Nat) (rest : List Nat) (hL : L < 2 ^ 64) :
    decodeReadLength (u64LE L ++ rest) = .readBody L rest ∧
    ∀ t : PendingTable, dispatchRun t [] = ⟨t, [], false⟩ :=
  ⟨decodeReadLength_u64LE L rest hL, fun _ => rfl⟩

/-- C7 witness: one byte past the suggested 64 MiB cap. -/
theorem c7_no_length_cap_witness :
    decodeReadLength (u64LE 67108865 ++ [9]) = .readBody 67108865 [9] ∧
    ∀ t : PendingTable, dispatchRun t [] = ⟨t, [], false⟩ :=
  c7_no_length_cap 67108865 [9] (by norm_num)

/-- C8: framing round-trips without loss — reading frames back from the
concatenation of the framed encodings of `a` and `b` (each frame being
the 8-byte little-endian body length, exclusive of itself, followed by
the serialized body) yields exactly `[a, b]`. -/
theorem c8_framing_roundtrip (a b : ProtocolMessage)
    (ha : wfMsg a) (hb : wfMsg b)
    (hla : (serMsg a).length < 2 ^ 64) (hlb : (serMsg b).length < 2 ^ 64) :
    readFrames (writeFrame a ++ writeFrame b) = some [a, b] := by
  rw [readFrames_writeFrame a _ ha hla,
    ← List.append_nil (writeFrame b),
    readFrames_writeFrame b [] hb hlb, readFrames_nil]
  rfl

/-- C8 witness: the round-trip at the concrete pair `(id 1, Run)` and
`(id 2, InputResponse 1)`. -/
theorem c8_framing_roundtrip_witness :
    readFrames (writeFrame ⟨1, .Run⟩ ++ writeFrame ⟨2, .InputResponse 1⟩) =
      some [⟨1, .Run⟩, ⟨2, .InputResponse 1⟩] :=
  c8_framing_roundtrip ⟨1, .Run⟩ ⟨2, .InputResponse 1⟩
    ⟨by norm_num, trivial⟩ ⟨by norm_num, by norm_num, by norm_num⟩
    (by decide) (by decide)

/-- C9: `RetroPixelFormat::convert` maps the 1×1 `0RGB1555` input
`[0x1F, 0x00]` to `[0, 0, 248, 255]` and the 1×1 `RGB565` input
`[0x00, 0xF8]` to `[255, 0, 0, 255]`. -/
theorem c9_pixel_convert_values :
    convert .Format0RGB1555 [0x1F, 0x00] 1 1 = some [0, 0, 248, 255] ∧
    convert .FormatRGB565 [0x00, 0xF8] 1 1 = some [255, 0, 0, 255] := by
  decide

/-- C10 counterexample: the claim says that for `d` shorter than
`w * h * pixel_size` with `w, h > 0` the indexing panics; but for
`XRGB8888` at 1×1 the three-byte input `[1, 2, 3]` (shorter than the
pixel size 4) converts without any out-of-bounds access, because the
fourth input byte of an `XRGB8888` pixel is never read. -/
theorem c10_counterexample :
    convert .FormatXRGB8888 [1, 2, 3] 1 1 = some [3, 2, 1, 255] ∧
    (3 : Nat) < 1 * 1 * get_pixel_size .FormatXRGB8888 := by
  decide

/-- C10 amended: for input of length at least `w * h * pixel_size` the
conversion performs no out-of-bounds access and returns `w * h * 4`
bytes with every fourth byte 255; and the indexing panics for `w, h > 0`
whenever the input is shorter than `convertMinLen` — `w * h * 2` for the
16-bit formats but only `w * h * 4 - 1` for `XRGB8888`, whose last
input byte is never read. -/
theorem c10_convert_safety (f : RetroPixelFormat) (d : List Nat)
    (w h : Nat) :
    (w * h * get_pixel_size f ≤ d.length →
      ∃ out, convert f d w h = some out ∧ out.length = w * h * 4 ∧
        ∀ i, i < w * h → out[4 * i + 3]? = some 255) ∧
    (0 < w → 0 < h → d.length < convertMinLen f w h →
      convert f d w h = none) := by
  constructor
  · intro hlen
    have hbnd : ∀ y ∈ List.range h, ∀ x ∈ List.range w,
        pixelPos f w y x + lastAccess f < d.length := by
      intro y hy x hx
      have hp := pixelPos_bound (f := f) (List.mem_range.1 hy)
        (List.mem_range.1 hx)
      omega
    obtain ⟨out, hout⟩ := convertRows_isSome hbnd
    obtain ⟨holen, hoa⟩ := convertRows_spec hout
    rw [List.length_range] at holen
    refine ⟨out, hout, by rw [holen]; ring, ?_⟩
    intro i hi
    apply hoa
    have h4 : 4 * w * h = 4 * (w * h) := by ring
    rw [holen, h4]
    omega
  · intro hw hh hshort
    cases hc : convert f d w h with
    | none => rfl
    | some out =>
      exfalso
      have hin := convertRows_inBounds hc (h - 1)
        (List.mem_range.2 (by omega)) (w - 1) (List.mem_range.2 (by omega))
      rw [pixelPos_eq] at hin
      obtain ⟨w0, rfl⟩ : ∃ w0, w = w0 + 1 := ⟨w - 1, by omega⟩
      obtain ⟨h0, rfl⟩ : ∃ h0, h = h0 + 1 := ⟨h - 1, by omega⟩
      simp only [Nat.add_sub_cancel] at hin
      cases f <;>
        simp only [convertMinLen, get_pixel_size, lastAccess] at hin hshort <;>
        ring_nf at hin hshort <;>
        omega

/-- C10 witness: both directions of the amended claim at concrete
inputs — a two-byte `0RGB1555` pixel converts, a one-byte input makes
the indexing panic. -/
theorem c10_convert_safety_witness :
    (∃ out, convert .Format0RGB1555 [31, 0] 1 1 = some out ∧
      out.length = 1 * 1 * 4 ∧
      ∀ i, i < 1 * 1 → out[4 * i + 3]? = some 255) ∧
    convert .Format0RGB1555 [31] 1 1 = none :=
  ⟨(c10_convert_safety .Format0RGB1555 [31, 0] 1 1).1 (by decide),
   (c10_convert_safety .Format0RGB1555 [31] 1 1).2 (by decide) (by decide)
     (by decide)⟩

end Oxretro
